import Mathlib

/-!
Verification of the TODO-Tok incremental TODO discovery engine.

This file gives a shallow embedding of the TypeScript sources
`src/services/todo-manager.ts`, `src/services/todo-finder.ts` and the
webview panel, and proves properties of the embedded code.

The embedding models:
  * the comment-marker extraction regex built at `todo-manager.ts:250-253`
    (specialised to the default `todotok.todoPattern`), including the
    JavaScript backtracking semantics of the lazy message group, the greedy
    whitespace runs, the optional separator, and the multiline `$`;
  * the `TodoManager` state (flat `todos` array, `todosByFile` grouping,
    `fileCache` map, `processedFiles` set, `isProcessing`, `status`) and its
    operations `initializeStream`, `processBatch`, `processRemainingFiles`,
    `refreshTodos`, `getNextBatch`, the file-watcher delete handler, queries,
    and `getInstance`/`initialize`;
  * `removeTodo` of `todo-finder.ts` together with the panel's `complete`
    handler.

External collaborators (the VS Code host) are modelled at their interface:
a `WorkspaceFile` carries the path, the mtime reported by `fs.stat`, the
document text, and a `readable` flag (false = `stat`/`openTextDocument`
throws, which the source catches per file); `positionAt` is modelled as the
usual offset-to-line/column conversion over newline characters; git blame
is an oracle parameter `blame : String → Nat → Option String`.
-/

/-! ## Characters: JavaScript character classes -/

/-- JavaScript regex `\s` (whitespace class), as used by `\s*` in the
extraction regex and by `String.prototype.trim`. -/
def jsWS (c : Char) : Bool :=
  c = ' ' || c = '\t' || c = '\n' || c = '\x0b' || c = '\x0c' || c = '\r' ||
  c.val = 0xa0 || c.val = 0x1680 || (0x2000 ≤ c.val && c.val ≤ 0x200a) ||
  c.val = 0x2028 || c.val = 0x2029 || c.val = 0x202f || c.val = 0x205f ||
  c.val = 0x3000 || c.val = 0xfeff

/-- JavaScript line terminators: what `.` refuses to match and where the
multiline `$` anchors. -/
def lineTerm (c : Char) : Bool :=
  c = '\n' || c = '\r' || c.val = 0x2028 || c.val = 0x2029

/-- Length of the maximal whitespace run at the head (greedy `\s*`). -/
def wsRun (s : List Char) : Nat := (s.takeWhile jsWS).length

/-- Strip an exact literal from the head of the input. -/
def eatExact : List Char → List Char → Option (List Char)
  | [], s => some s
  | _ :: _, [] => none
  | p :: ps, c :: cs => if p = c then eatExact ps cs else none

/-- Strip a literal case-insensitively (the regex `i` flag); returns the
actually-matched characters (the capture keeps the source's case) and the
rest of the input. -/
def eatCI : List Char → List Char → Option (List Char × List Char)
  | [], s => some ([], s)
  | _ :: _, [] => none
  | p :: ps, c :: cs =>
    if p.toUpper = c.toUpper then
      match eatCI ps cs with
      | some (cap, r) => some (c :: cap, r)
      | none => none
    else none

/-! ## The extraction regex

`todo-manager.ts:250-253` / `todo-finder.ts:69-72` build

  `(?:(?://|/\*|\*|#|<!--|"""|'''|--|%%|\{-|\(\*|;)\s*)(P)(?:[:_-])?\s*(.+?)\s*(?:\*/|-->|"""|'''|\-\}|\*\)|$)`

with flags `gim`, where `P` is the configured marker alternation (default
`(?:TODO|TO-DO|TO_DO|FIXME|FIX-ME|FIX_ME|XXX|HACK|BUG|OPTIMIZE|REVIEW)`).
The functions below implement exactly this pattern's JavaScript matching
semantics: alternatives tried in written order, greedy `\s*` and `(?:[:_-])?`
with backtracking, lazy `(.+?)` (shortest first), `.` refusing line
terminators, multiline `$` matching at end of input or before a line
terminator, and the `g`-flag scan resuming at the end of each match. -/

/-- The comment-opening alternatives, in the regex's order.
(`{` and `}` appear via their code points.) -/
def openerLits : List (List Char) :=
  [['/', '/'], ['/', '*'], ['*'], ['#'],
   ['<', '!', '-', '-'],
   ['\"', '\"', '\"'],
   ['\'', '\'', '\''],
   ['-', '-'], ['%', '%'],
   [Char.ofNat 123, '-'],
   ['(', '*'], [';']]

/-- The comment-closing alternatives, in the regex's order (the `$`
alternative is handled separately). -/
def closerLits : List (List Char) :=
  [['*', '/'], ['-', '-', '>'],
   ['\"', '\"', '\"'],
   ['\'', '\'', '\''],
   ['-', Char.ofNat 125],
   ['*', ')']]

/-- The default marker alternation of `todotok.todoPattern`
(`package.json` default, also the fallback at `todo-manager.ts:57`). -/
def markerWords : List String :=
  ["TODO", "TO-DO", "TO_DO", "FIXME", "FIX-ME", "FIX_ME", "XXX", "HACK",
   "BUG", "OPTIMIZE", "REVIEW"]

/-- Multiline `$`: end of input, or immediately before a line terminator. -/
def dollarAt : List Char → Bool
  | [] => true
  | c :: _ => lineTerm c

/-- Try the closer alternatives in order at exactly this position; return
the number of characters consumed. -/
def tryClosers : List (List Char) → List Char → Option Nat
  | [], _ => none
  | c :: cs, t =>
    match eatExact c t with
    | some _ => some c.length
    | none => tryClosers cs t

/-- The alternation `(?:\*/|-->|"""|'''|\-\}|\*\)|$)` at this position. -/
def closeEnd (t : List Char) : Option Nat :=
  match tryClosers closerLits t with
  | some n => some n
  | none => if dollarAt t then some 0 else none

/-- `\s*(?:closer|$)` starting from whitespace-run length `j` and
backtracking downwards (greedy `\s*`); returns total characters consumed. -/
def closeFrom (s : List Char) : Nat → Option Nat
  | 0 => closeEnd s
  | j + 1 =>
    match closeEnd (s.drop (j + 1)) with
    | some n => some (j + 1 + n)
    | none => closeFrom s j

/-- `\s*(?:closer|$)` with greedy `\s*`. -/
def closeMatch (s : List Char) : Option Nat := closeFrom s (wsRun s)

/-- The lazy group `(.+?)` followed by `\s*(?:closer|$)`: try message
lengths `mlen, mlen+1, ...` (`rem` tries remain), shortest first; a message
never contains a line terminator.  Returns (message length, characters the
tail consumed after the message). -/
def msgSearchAux (s : List Char) : Nat → Nat → Option (Nat × Nat)
  | _, 0 => none
  | mlen, rem + 1 =>
    match closeMatch (s.drop mlen) with
    | some n => some (mlen, n)
    | none => msgSearchAux s (mlen + 1) rem

/-- `(.+?)\s*(?:closer|$)` at this position. -/
def msgSearch (s : List Char) : Option (Nat × Nat) :=
  msgSearchAux s 1 ((s.takeWhile (fun c => !lineTerm c)).length)

/-- `\s*(.+?)\s*(?:closer|$)` with the leading greedy `\s*` starting at
run length `j` and backtracking downwards.  Returns (characters consumed,
message capture). -/
def tailFrom (s : List Char) : Nat → Option (Nat × List Char)
  | 0 =>
    match msgSearch s with
    | some (m, c) => some (m + c, s.take m)
    | none => none
  | j + 1 =>
    match msgSearch (s.drop (j + 1)) with
    | some (m, c) => some (j + 1 + m + c, (s.drop (j + 1)).take m)
    | none => tailFrom s j

/-- `\s*(.+?)\s*(?:closer|$)`. -/
def tailMatch (s : List Char) : Option (Nat × List Char) :=
  tailFrom s (wsRun s)

/-- `(?:[:_-])?\s*(.+?)\s*(?:closer|$)`: the optional separator is greedy,
so the engine first commits to it and only drops it on failure. -/
def afterMarker (s : List Char) : Option (Nat × List Char) :=
  match s with
  | c :: rest =>
    if c = ':' || c = '_' || c = '-' then
      match tailMatch rest with
      | some (n, msg) => some (n + 1, msg)
      | none => tailMatch s
    else tailMatch s
  | [] => tailMatch []

/-- Try the marker alternatives in order (case-insensitively); on a
downstream failure the engine falls through to the next alternative.
Returns (characters consumed from the marker on, marker capture, message
capture). -/
def tryMarkers : List String → List Char → Option (Nat × List Char × List Char)
  | [], _ => none
  | m :: ms, s =>
    match eatCI m.data s with
    | some (cap, s3) =>
      match afterMarker s3 with
      | some (n, msg) => some (m.data.length + n, cap, msg)
      | none => tryMarkers ms s
    | none => tryMarkers ms s

/-- Try the opener alternatives in order; each commits its `\s*` maximally
(markers start with non-whitespace, so no shorter run can help). -/
def tryOpeners : List (List Char) → List Char → Option (Nat × List Char × List Char)
  | [], _ => none
  | o :: os, s =>
    match eatExact o s with
    | some s1 =>
      let w := wsRun s1
      match tryMarkers markerWords (s1.drop w) with
      | some (n, cap, msg) => some (o.length + w + n, cap, msg)
      | none => tryOpeners os s
    | none => tryOpeners os s

/-- A whole-regex match attempt anchored at this position. -/
def matchAt (s : List Char) : Option (Nat × List Char × List Char) :=
  tryOpeners openerLits s

/-- One regex match, as the `exec` loop at `todo-manager.ts:255-277` sees
it: `index`/`length` delimit `match[0]`, `marker` is `match[1]`, `message`
is `match[2]`. -/
structure TodoMatch where
  index : Nat
  length : Nat
  marker : String
  message : String
deriving DecidableEq, Repr

/-- The `g`-flag scan: find the leftmost match at or after the current
position, emit it, resume at its end.  `fuel` bounds the recursion (every
match consumes at least one character). -/
def findMatchesAux : Nat → List Char → Nat → List TodoMatch
  | 0, _, _ => []
  | fuel + 1, s, i =>
    match s with
    | [] => []
    | _ :: rest =>
      match matchAt s with
      | some (n, cap, msg) =>
        ⟨i, n, ⟨cap⟩, ⟨msg⟩⟩ :: findMatchesAux fuel (s.drop n) (i + n)
      | none => findMatchesAux fuel rest (i + 1)

/-- All matches of the extraction regex over a document's text, in order. -/
def findTodoMatches (text : String) : List TodoMatch :=
  findMatchesAux text.data.length text.data 0

/-! ## Offsets to positions, JavaScript string helpers -/

/-- `document.positionAt`, line component (0-based): number of newlines
before the offset. -/
def lineOf (t : List Char) (off : Nat) : Nat :=
  ((t.take off).filter (fun c => c = '\n')).length

/-- `document.positionAt`, column component (0-based): characters since the
last newline before the offset. -/
def colOf (t : List Char) (off : Nat) : Nat :=
  ((t.take off).reverse.takeWhile (fun c => c ≠ '\n')).length

/-- `String.prototype.toUpperCase` (ASCII-relevant part). -/
def toUpperStr (s : String) : String := ⟨s.data.map Char.toUpper⟩

/-- `String.prototype.trim`. -/
def jsTrim (s : String) : String :=
  ⟨((s.data.dropWhile jsWS).reverse.dropWhile jsWS).reverse⟩

/-! ## Data model -/

/-- The `Todo` interface (`todo-manager.ts:8-15`): `range` is flattened to
its four coordinates. -/
structure Todo where
  text : String
  file : String
  line : Nat
  column : Nat
  endLine : Nat
  endColumn : Nat
  author : Option String
deriving DecidableEq, Repr

/-- A workspace file as the host reports it: path, `fs.stat` mtime, the
document text, and whether `stat`/`openTextDocument` succeed (`false`
models the per-file exception caught at `todo-manager.ts:289-291`). -/
structure WorkspaceFile where
  path : String
  mtime : Nat
  text : String
  readable : Bool
deriving DecidableEq, Repr

/-- The `FileCache` interface (`todo-manager.ts:17-20`). -/
structure FileCache where
  lastChecked : Nat
  lastModified : Nat
deriving DecidableEq, Repr

/-- `ProcessingStatus.state` values (`todo-manager.ts:26`). -/
inductive ScanState
  | idle
  | searching
  | complete
deriving DecidableEq, Repr

/-- The `ProcessingStatus` interface (`todo-manager.ts:22-27`). -/
structure ProcessingStatus where
  currentFile : Option String
  filesProcessed : Nat
  totalFiles : Nat
  state : ScanState
deriving DecidableEq, Repr

/-! ### Association-list maps and insertion-ordered sets

`Map`, `Set` and plain-object fields of the manager, with JavaScript's
insertion-order semantics: updating an existing key keeps its position,
a new key is appended. -/

/-- `Map.get` / object property read. -/
def alGet {α : Type} : List (String × α) → String → Option α
  | [], _ => none
  | (k, v) :: r, s => if k = s then some v else alGet r s

/-- `Map.set` / object property write. -/
def alSet {α : Type} : List (String × α) → String → α → List (String × α)
  | [], k, v => [(k, v)]
  | (k', v') :: r, k, v =>
    if k' = k then (k', v) :: r else (k', v') :: alSet r k v

/-- `Map.delete`. -/
def alErase {α : Type} (l : List (String × α)) (k : String) : List (String × α) :=
  l.filter (fun p => p.1 ≠ k)

/-- `Set.add`. -/
def strInsert (l : List String) (s : String) : List String :=
  if s ∈ l then l else l ++ [s]

/-- The mutable state of the `TodoManager` singleton
(`todo-manager.ts:33-49`; fields not bearing on behaviour — pattern
string, output channel, listeners, watcher handle — are omitted). -/
structure TodoManager where
  fileCache : List (String × FileCache)
  processedFiles : List String
  todos : List Todo
  todosByFile : List (String × List Todo)
  isProcessing : Bool
  status : ProcessingStatus
deriving DecidableEq, Repr

/-- Field defaults of a freshly constructed instance
(`todo-manager.ts:36-48`), before the constructor runs `initialize`. -/
def newManager : TodoManager :=
  { fileCache := [], processedFiles := [], todos := [], todosByFile := [],
    isProcessing := false,
    status := { currentFile := none, filesProcessed := 0, totalFiles := 0,
                state := ScanState.idle } }

/-! ## Extraction (`todo-manager.ts:246-277`) -/

/-- Build the stored `Todo` from one regex match
(`todo-manager.ts:258-271`): `match[1].toUpperCase().trim()` is the kind,
`match[2].trim()` the message, positions come from `positionAt`, the
author from the git-blame oracle. -/
def mkTodoFromMatch (blame : String → Nat → Option String)
    (f : WorkspaceFile) (m : TodoMatch) : Todo :=
  let line := lineOf f.text.data m.index
  { text := "[" ++ jsTrim (toUpperStr m.marker) ++ "] " ++ jsTrim m.message,
    file := f.path,
    line := line,
    column := colOf f.text.data m.index,
    endLine := lineOf f.text.data (m.index + m.length),
    endColumn := colOf f.text.data (m.index + m.length),
    author := blame f.path line }

/-- The `while ((match = regex.exec(text)))` loop body's guard and push
(`todo-manager.ts:256-277`): a match is stored iff `match[1] && match[2]`
are truthy, i.e. both raw captures are non-empty strings. -/
def extractTodos (blame : String → Nat → Option String)
    (f : WorkspaceFile) : List Todo :=
  (findTodoMatches f.text).filterMap (fun m =>
    if m.marker ≠ "" ∧ m.message ≠ "" then some (mkTodoFromMatch blame f m)
    else none)

/-! ## The batch scan (`todo-manager.ts:165-300`) -/

/-- The configured batch size (`todo-manager.ts:41`). -/
def batchSize : Nat := 20

/-- The `updateStatus({currentFile, filesProcessed+1})` call at
`todo-manager.ts:233-236` (`asRelativePath` is modelled as the identity on
paths). -/
def bumpStatus (st : TodoManager) (f : WorkspaceFile) : TodoManager :=
  { st with status := { st.status with
      currentFile := some f.path,
      filesProcessed := st.status.filesProcessed + 1 } }

/-- The skip test at `todo-manager.ts:241`:
`cached && cached.lastModified === stats.mtime`. -/
def cacheHit (st : TodoManager) (f : WorkspaceFile) : Bool :=
  match alGet st.fileCache f.path with
  | some c => c.lastModified = f.mtime
  | none => false

/-- One iteration of the `for (const file of files)` loop in `processBatch`
(`todo-manager.ts:226-292`), threading (manager state, `newTodos`). -/
def processFileStep (blame : String → Nat → Option String) (now : Nat)
    (acc : TodoManager × List Todo) (f : WorkspaceFile) :
    TodoManager × List Todo :=
  let (st, newTodos) := acc
  if f.path ∈ st.processedFiles then
    ({ st with status := { st.status with
         filesProcessed := st.status.filesProcessed + 1 } }, newTodos)
  else
    let st1 := bumpStatus st f
    if f.readable = true then
      if cacheHit st1 f then
        ({ st1 with processedFiles := strInsert st1.processedFiles f.path },
         newTodos)
      else
        let fileTodos := extractTodos blame f
        ({ st1 with
            todos := st1.todos ++ fileTodos,
            todosByFile :=
              if fileTodos.isEmpty then st1.todosByFile
              else alSet st1.todosByFile f.path fileTodos,
            fileCache := alSet st1.fileCache f.path
              { lastChecked := now, lastModified := f.mtime },
            processedFiles := strInsert st1.processedFiles f.path },
         newTodos ++ fileTodos)
    else (st1, newTodos)

/-- `processBatch` (`todo-manager.ts:223-295`): returns the updated state
and the batch's `newTodos`. -/
def processBatch (blame : String → Nat → Option String) (now : Nat)
    (st : TodoManager) (files : List WorkspaceFile) :
    TodoManager × List Todo :=
  files.foldl (processFileStep blame now) (st, [])

/-- De-duplication of the enumerated files by canonical identity
(`todo-manager.ts:192`, `Array.from(new Set(...))` keeps first
occurrences). -/
def dedupGo : Nat → List WorkspaceFile → List WorkspaceFile
  | _, [] => []
  | 0, _ => []
  | fuel + 1, f :: fs =>
    f :: dedupGo fuel (fs.filter (fun g => g.path ≠ f.path))

/-- De-duplication of the enumerated files by canonical identity
(`todo-manager.ts:192`; `Array.from(new Set(...))` keeps first
occurrences).  `fuel = length` suffices: each step strictly shrinks. -/
def dedupFiles (l : List WorkspaceFile) : List WorkspaceFile :=
  dedupGo l.length l

/-- What `initializeStream` (`todo-manager.ts:165-212`) produces: the state
at the moment the call returns, the synchronously computed first batch, and
the files handed to the (not yet run) background continuation. -/
structure StreamResult where
  state : TodoManager
  firstBatch : List Todo
  pending : List WorkspaceFile
deriving Repr

/-- `initializeStream` (`todo-manager.ts:165-212`): reset `todos` and
`processedFiles`, set `isProcessing`, enumerate and de-duplicate, process
the first `batchSize` files synchronously, and either schedule the rest for
the background or mark the scan complete. -/
def initializeStream (blame : String → Nat → Option String) (now : Nat)
    (files : List WorkspaceFile) (st : TodoManager) : StreamResult :=
  let st1 := { st with
    todos := [], processedFiles := [], isProcessing := true,
    status := { st.status with
      state := ScanState.searching, filesProcessed := 0 } }
  let allFiles := dedupFiles files
  let st2 := { st1 with status := { st1.status with
                 totalFiles := allFiles.length } }
  let r := processBatch blame now st2 (allFiles.take batchSize)
  if batchSize < allFiles.length then
    ⟨r.1, r.2, allFiles.drop batchSize⟩
  else
    ⟨{ r.1 with status := { r.1.status with state := ScanState.complete } },
     r.2, []⟩

/-- Splitting into batches: `chunksGo n fuel l` slices `l` into pieces of
`n` (`fuel` bounds the recursion; `fuel = l.length` suffices for `n ≥ 1`). -/
def chunksGo {α : Type} (n : Nat) : Nat → List α → List (List α)
  | _, [] => []
  | 0, _ => []
  | fuel + 1, l => l.take n :: chunksGo n fuel (l.drop n)

/-- The `for (let i = 0; i < files.length; i += this.batchSize)` slicing of
`processRemainingFiles` (`todo-manager.ts:215-216`). -/
def chunks {α : Type} (n : Nat) (l : List α) : List (List α) :=
  chunksGo n l.length l

/-- `processRemainingFiles` (`todo-manager.ts:214-221`): run the remaining
files batch by batch, then clear `isProcessing` and publish the final
status. -/
def processRemainingFiles (blame : String → Nat → Option String) (now : Nat)
    (st : TodoManager) (files : List WorkspaceFile) : TodoManager :=
  let st' := (chunks batchSize files).foldl
    (fun s b => (processBatch blame now s b).1) st
  { st' with
    isProcessing := false,
    status := { st'.status with
      state := ScanState.complete, currentFile := none } }

/-- A whole scan run to completion: `initializeStream` followed by the
background continuation (when one was scheduled).  Returns the final state
and the first batch the caller received. -/
def runScan (blame : String → Nat → Option String) (now : Nat)
    (files : List WorkspaceFile) (st : TodoManager) :
    TodoManager × List Todo :=
  let r := initializeStream blame now files st
  if r.pending.isEmpty then (r.state, r.firstBatch)
  else (processRemainingFiles blame now r.state r.pending, r.firstBatch)

/-! ## Queries, refresh, watcher, lifecycle -/

/-- `getNextBatch` (`todo-manager.ts:297-300`):
`todos.slice(startIndex, min(startIndex + batchSize, todos.length))`. -/
def getNextBatch (st : TodoManager) (startIndex : Nat) : List Todo :=
  let e := min (startIndex + batchSize) st.todos.length
  (st.todos.drop startIndex).take (e - startIndex)

/-- `getTotalCount` (`todo-manager.ts:302-304`). -/
def getTotalCount (st : TodoManager) : Nat := st.todos.length

/-- `isStillProcessing` (`todo-manager.ts:306-308`). -/
def isStillProcessing (st : TodoManager) : Bool := st.isProcessing

/-- `getTodosInFile` (`todo-manager.ts:321-323`). -/
def getTodosInFile (st : TodoManager) (filePath : String) : List Todo :=
  (alGet st.todosByFile filePath).getD []

/-- `getTodoCountInFile` (`todo-manager.ts:325-327`):
`this.todosByFile[filePath]?.length || 0`. -/
def getTodoCountInFile (st : TodoManager) (filePath : String) : Nat :=
  match alGet st.todosByFile filePath with
  | some l => l.length
  | none => 0

/-- The state reset of `refreshTodos` (`todo-manager.ts:311-313`) before it
re-runs `initializeStream`. -/
def refreshReset (st : TodoManager) : TodoManager :=
  { st with todos := [], processedFiles := [], fileCache := [] }

/-- `refreshTodos` (`todo-manager.ts:310-315`), run to scan completion. -/
def refreshTodos (blame : String → Nat → Option String) (now : Nat)
    (files : List WorkspaceFile) (st : TodoManager) :
    TodoManager × List Todo :=
  runScan blame now files (refreshReset st)

/-- The `onDidDelete` watcher handler (`todo-manager.ts:111-116`): drop the
cache entry and the processed-mark, and filter the flat `todos` array.
(Nothing touches `todosByFile`.) -/
def onDidDelete (st : TodoManager) (filePath : String) : TodoManager :=
  { st with fileCache := alErase st.fileCache filePath,
            processedFiles := st.processedFiles.filter (fun p => p ≠ filePath),
            todos := st.todos.filter (fun t => t.file ≠ filePath) }

/-- The private `initialize` method (`todo-manager.ts:55-74`): clear the
flat list, the processed set and the cache, reset `isProcessing` and the
status to idle.  (`todosByFile` is not touched.) -/
def initializeManager (st : TodoManager) : TodoManager :=
  { st with todos := [], processedFiles := [], fileCache := [],
            isProcessing := false,
            status := { currentFile := none, filesProcessed := 0,
                        totalFiles := 0, state := ScanState.idle } }

/-- `getInstance` (`todo-manager.ts:84-92`): construct-and-initialize on
first use, re-run `initialize` on the existing instance otherwise. -/
def getInstance (inst : Option TodoManager) : TodoManager :=
  match inst with
  | none => initializeManager newManager
  | some m => initializeManager m

/-- Sum of `getTodoCountInFile f` over the files `f` with a positive count
(the grouping's keys are unique by construction of `alSet`). -/
def sumFileCounts (st : TodoManager) : Nat :=
  ((st.todosByFile.filter (fun p => 0 < p.2.length)).map
    (fun p => p.2.length)).sum

/-! ## `removeTodo` and the panel's complete handler -/

/-- Outcome of the host edit in `removeTodo` (`todo-finder.ts:127-143`):
`applyEdit` resolved true, resolved false, or the `try` block threw. -/
inductive EditOutcome
  | applied
  | rejected
  | errored
deriving DecidableEq, Repr

/-- The validity guard at `todo-finder.ts:122`: `!todo || !todo.file ||
!todo.range` (a missing item, or a falsy — empty — file path; the range is
always present in the model). -/
def isValidTodoRef : Option Todo → Bool
  | none => false
  | some t => !(t.file = "")

/-- `removeTodo` (`todo-finder.ts:121-144`): returns the success flag and
the user-visible message shown on that path. -/
def removeTodo (todo : Option Todo) (outcome : EditOutcome) : Bool × String :=
  if isValidTodoRef todo = false then
    (false, "TODO Tok: Invalid TODO item. Cannot remove.")
  else
    match outcome with
    | EditOutcome.errored => (false, "TODO Tok: Error removing TODO. Please try again.")
    | EditOutcome.applied => (true, "TODO Tok: Successfully removed TODO.")
    | EditOutcome.rejected => (false, "TODO Tok: Could not remove TODO. The file might be read-only.")

/-- The panel's `complete` message handler (`todo-panel` lines 155-161):
rescan (`_loadInitialTodos` → `initializeStream`) only when `removeTodo`
succeeded; on failure the manager state is left as it was. -/
def handleComplete (blame : String → Nat → Option String) (now : Nat)
    (files : List WorkspaceFile) (st : TodoManager)
    (todo : Option Todo) (outcome : EditOutcome) : TodoManager × Bool :=
  let r := removeTodo todo outcome
  if r.1 then ((runScan blame now files st).1, true)
  else (st, false)

/-! ## Helper lemmas on the map/set embeddings -/

theorem alGet_alSet {α : Type} (l : List (String × α)) (k p : String) (v : α) :
    alGet (alSet l k v) p = if p = k then some v else alGet l p := by
  induction l with
  | nil =>
    by_cases h : p = k
    · subst h; simp [alSet, alGet]
    · have h' : ¬ k = p := fun hh => h hh.symm
      simp [alSet, alGet, h, h']
  | cons hd tl ih =>
    obtain ⟨k', v'⟩ := hd
    by_cases h1 : k' = k
    · subst h1
      by_cases h2 : p = k'
      · subst h2; simp [alSet, alGet]
      · have h2' : ¬ k' = p := fun hh => h2 hh.symm
        simp [alSet, alGet, h2, h2']
    · by_cases h2 : k' = p
      · have h3 : ¬ p = k := fun hh => h1 (h2.trans hh)
        simp [alSet, alGet, h1, h2, h3]
      · by_cases h4 : p = k
        · subst h4
          simp [alSet, alGet, h1, h2, ih]
        · simp [alSet, alGet, h1, h2, h4, ih]

theorem strInsert_of_not_mem {l : List String} {s : String} (h : s ∉ l) :
    strInsert l s = l ++ [s] := by
  simp [strInsert, h]

/-! ## Concrete scenario: scan one file, then the watcher reports it deleted

`fDel` holds three annotations; `scannedSt` is the manager state after a
fresh complete scan of the one-file workspace; `deletedSt` is the state
after the `onDidDelete` handler ran for that file. -/

/-- Git-blame oracle that always fails (`getGitAuthor` returning
`undefined`). -/
def blameNone : String → Nat → Option String := fun _ _ => none

def fDel : WorkspaceFile :=
  ⟨"src/a.ts", 1, "// TODO: fix this\n// FIXME: b\n// HACK: c\n", true⟩

def scannedSt : TodoManager :=
  (runScan blameNone 0 [fDel] (initializeManager newManager)).1

def deletedSt : TodoManager := onDidDelete scannedSt "src/a.ts"

/-- C1: refuted on the code (code bug).  The deletion handler
(`todo-manager.ts:111-116`) filters the flat `todos` array but never
touches `todosByFile`, so after scanning one file with three annotations
and handling its deletion, `totalCount()` is `0` while the sum of
`getTodoCountInFile` over files with a positive count is still `3` — the
two views of the store disagree after a reachable mutation. -/
theorem C1_store_views_disagree :
    getTotalCount scannedSt = 3 ∧ sumFileCounts scannedSt = 3 ∧
    getTotalCount deletedSt = 0 ∧ sumFileCounts deletedSt = 3 := by decide

/-- C2: refuted on the code (code bug).  Deleting the file that
contributed three stored annotations removes exactly those three from the
flat sequence (`todos` becomes empty), but the per-file grouping keeps all
three, and `getTodoCountInFile` returns `3` instead of the claimed `0`. -/
theorem C2_delete_keeps_per_file_grouping :
    scannedSt.todos.length = 3 ∧ deletedSt.todos = [] ∧
    getTodosInFile deletedSt "src/a.ts" ≠ [] ∧
    getTodoCountInFile deletedSt "src/a.ts" = 3 := by decide

/-- C10: confirmed.  `getInstance` on an existing instance re-runs
`initialize`, which clears the flat todo list, the file cache and the
processed-file set, resets `isProcessing` and the status to idle, and
leaves `todosByFile` untouched. -/
theorem C10_getInstance_resets_state (m : TodoManager) :
    getInstance (some m) = initializeManager m ∧
    getInstance (some m) =
      { m with todos := [], fileCache := [], processedFiles := [],
               isProcessing := false,
               status := { currentFile := none, filesProcessed := 0,
                           totalFiles := 0, state := ScanState.idle } } :=
  ⟨rfl, rfl⟩

/-- C6: confirmed.  `// TODO: fix this` yields exactly one annotation of
kind `TODO` with message `fix this`, and `# FIXME add validation` (no
separator after the marker) exactly one of kind `FIXME` with message
`add validation` — both as raw kind/message captures after the source's
`toUpperCase().trim()`, and as the stored `Todo` records. -/
theorem C6_scenario_extractions :
    ((findTodoMatches "// TODO: fix this").map
      (fun m => (jsTrim (toUpperStr m.marker), jsTrim m.message)))
      = [("TODO", "fix this")] ∧
    ((findTodoMatches "# FIXME add validation").map
      (fun m => (jsTrim (toUpperStr m.marker), jsTrim m.message)))
      = [("FIXME", "add validation")] ∧
    extractTodos blameNone ⟨"a.ts", 0, "// TODO: fix this", true⟩
      = [⟨"[TODO] fix this", "a.ts", 0, 0, 0, 17, none⟩] ∧
    extractTodos blameNone ⟨"b.py", 0, "# FIXME add validation", true⟩
      = [⟨"[FIXME] add validation", "b.py", 0, 0, 0, 22, none⟩] := by decide

/-- The C7 counterexample input: a marker whose message capture is the
single space before the end of the line. -/
def wsFile : WorkspaceFile := ⟨"w.ts", 0, "// TODO: ", true⟩

/-- C7: refuted as stated.  On `"// TODO: "` the regex matches with
`match[2] = " "` (whitespace-only); the guard at `todo-manager.ts:257`
tests the raw captures for truthiness, so the candidate is **not** dropped:
an annotation with text `"[TODO] "` — empty message after trimming — is
stored. -/
theorem C7_whitespace_message_not_dropped :
    (findTodoMatches "// TODO: ").map (fun m => m.message) = [" "] ∧
    jsTrim " " = "" ∧
    extractTodos blameNone wsFile = [⟨"[TODO] ", "w.ts", 0, 0, 0, 9, none⟩] := by
  decide

/-! ## C8: pagination over the flat sequence -/

theorem getNextBatch_eq_drop_take (st : TodoManager) (i : Nat) :
    getNextBatch st i = (st.todos.drop i).take batchSize := by
  unfold getNextBatch
  rw [List.take_eq_take]
  simp only [List.length_drop]
  omega

theorem batches_flatten_take (l : List Todo) (n : Nat) :
    ((List.range n).map
      (fun j => (l.drop (batchSize * j)).take batchSize)).flatten
      = l.take (batchSize * n) := by
  induction n with
  | zero => simp
  | succ n ih =>
    rw [List.range_succ, List.map_append, List.flatten_append, ih,
        Nat.mul_succ, List.take_add]
    simp

/-- C8: confirmed.  Concatenating `getNextBatch 0`, `getNextBatch b`,
`getNextBatch 2b`, … (any number `n` of pages covering the sequence)
reconstructs the flat annotation sequence exactly — no gaps, no
duplicates — and a page is empty precisely when the start index is at or
past the end of the sequence. -/
theorem C8_pagination_reconstructs (st : TodoManager) (n i : Nat)
    (h : getTotalCount st ≤ batchSize * n) :
    ((List.range n).map (fun j => getNextBatch st (batchSize * j))).flatten
      = st.todos ∧
    (getNextBatch st i = [] ↔ getTotalCount st ≤ i) := by
  constructor
  · simp only [getNextBatch_eq_drop_take]
    rw [batches_flatten_take]
    exact List.take_of_length_le h
  · rw [getNextBatch_eq_drop_take, List.take_eq_nil_iff, List.drop_eq_nil_iff]
    simp [batchSize, getTotalCount]

def todoW : Todo := ⟨"[TODO] x", "a.ts", 0, 0, 0, 8, none⟩

def stW8 : TodoManager := { newManager with todos := [todoW] }

/-- Witness for C8 at a one-annotation store, one page, probe index 5. -/
theorem C8_pagination_witness :
    ((List.range 1).map (fun j => getNextBatch stW8 (batchSize * j))).flatten
      = stW8.todos ∧
    (getNextBatch stW8 5 = [] ↔ getTotalCount stW8 ≤ 5) :=
  C8_pagination_reconstructs stW8 1 5 (by decide)

/-! ## C9: failed removals -/

/-- C9: confirmed.  Whenever removal fails — invalid item, `applyEdit`
resolving false (read-only file), or a thrown error — `removeTodo` returns
`false` with a non-empty user-visible message, and the panel's `complete`
handler leaves the manager state untouched and triggers no rescan; the
rescan happens only on success. -/
theorem C9_remove_failure_leaves_store (blame : String → Nat → Option String)
    (now : Nat) (files : List WorkspaceFile) (st : TodoManager)
    (todo : Option Todo) (outcome : EditOutcome)
    (h : isValidTodoRef todo = false ∨ outcome ≠ EditOutcome.applied) :
    (removeTodo todo outcome).1 = false ∧
    (removeTodo todo outcome).2 ≠ "" ∧
    handleComplete blame now files st todo outcome = (st, false) := by
  have hfalse : (removeTodo todo outcome).1 = false := by
    rcases h with h | h
    · simp [removeTodo, h]
    · by_cases hv : isValidTodoRef todo = false
      · simp [removeTodo, hv]
      · cases outcome with
        | applied => exact absurd rfl h
        | rejected => simp [removeTodo, hv]
        | errored => simp [removeTodo, hv]
  refine ⟨hfalse, ?_, by simp [handleComplete, hfalse]⟩
  by_cases hv : isValidTodoRef todo = false
  · simp only [removeTodo, hv, if_pos]
    decide
  · cases outcome <;> simp [removeTodo, hv]

/-- Witness for C9: removing with a missing item and a rejected edit. -/
theorem C9_remove_failure_witness :
    (removeTodo none EditOutcome.rejected).1 = false ∧
    (removeTodo none EditOutcome.rejected).2 ≠ "" ∧
    handleComplete blameNone 0 [] newManager none EditOutcome.rejected
      = (newManager, false) :=
  C9_remove_failure_leaves_store blameNone 0 [] newManager none
    EditOutcome.rejected (Or.inl (by decide))

/-! ## C4 counterexample scenario: a superseded background batch

A 21-file workspace makes the first scan leave one file (`leak.ts`,
containing one annotation) to its background continuation.  A refresh then
resets the state and runs a new 1-file scan, which completes with an empty
store.  Running the old, still-pending continuation afterwards — exactly
what the code does, there being no generation token anywhere in the
state — injects the superseded scan's annotation into the fresh store. -/

def mkEmptyFile (i : Nat) : WorkspaceFile :=
  ⟨"f" ++ Nat.repr i, 0, "", true⟩

def files1 : List WorkspaceFile :=
  (List.range batchSize).map mkEmptyFile ++ [⟨"leak.ts", 0, "// TODO: leak\n", true⟩]

def scan1 : StreamResult :=
  initializeStream blameNone 0 files1 (initializeManager newManager)

def gFile : WorkspaceFile := ⟨"g.ts", 0, "", true⟩

def freshScanSt : TodoManager :=
  (initializeStream blameNone 0 [gFile] (refreshReset scan1.state)).state

def staleSt : TodoManager :=
  processRemainingFiles blameNone 0 freshScanSt scan1.pending

/-- C4: refuted as stated.  The first scan leaves `leak.ts` pending; the
new scan's store completes empty; the old continuation then runs with no
staleness check (the state carries no generation counter) and the
superseded scan's annotation ends up in the fresh scan's store. -/
theorem C4_stale_batch_pollutes_fresh_store :
    scan1.pending.map (fun f => f.path) = ["leak.ts"] ∧
    freshScanSt.todos = [] ∧
    freshScanSt.status.state = ScanState.complete ∧
    staleSt.todos.map (fun t => t.file) = ["leak.ts"] := by decide

/-! ## Branch lemmas for one `processBatch` loop iteration -/

theorem step_processed (blame : String → Nat → Option String) (now : Nat)
    (st : TodoManager) (acc : List Todo) (f : WorkspaceFile)
    (h1 : f.path ∈ st.processedFiles) :
    processFileStep blame now (st, acc) f =
      ({ st with status := { st.status with
           filesProcessed := st.status.filesProcessed + 1 } }, acc) := by
  simp [processFileStep, h1]

theorem step_unreadable (blame : String → Nat → Option String) (now : Nat)
    (st : TodoManager) (acc : List Todo) (f : WorkspaceFile)
    (h1 : f.path ∉ st.processedFiles) (h2 : f.readable = false) :
    processFileStep blame now (st, acc) f = (bumpStatus st f, acc) := by
  simp [processFileStep, h1, h2]

theorem cacheHit_set_status (st : TodoManager) (s' : ProcessingStatus)
    (f : WorkspaceFile) : cacheHit { st with status := s' } f = cacheHit st f :=
  rfl

theorem step_cacheSkip (blame : String → Nat → Option String) (now : Nat)
    (st : TodoManager) (acc : List Todo) (f : WorkspaceFile)
    (h1 : f.path ∉ st.processedFiles) (h2 : f.readable = true)
    (h3 : cacheHit st f = true) :
    processFileStep blame now (st, acc) f =
      ({ bumpStatus st f with
          processedFiles := strInsert st.processedFiles f.path }, acc) := by
  simp [processFileStep, h1, h2, bumpStatus, cacheHit_set_status, h3]

theorem step_extract (blame : String → Nat → Option String) (now : Nat)
    (st : TodoManager) (acc : List Todo) (f : WorkspaceFile)
    (h1 : f.path ∉ st.processedFiles) (h2 : f.readable = true)
    (h3 : cacheHit st f = false) :
    processFileStep blame now (st, acc) f =
      ({ bumpStatus st f with
          todos := st.todos ++ extractTodos blame f,
          todosByFile :=
            if (extractTodos blame f).isEmpty then st.todosByFile
            else alSet st.todosByFile f.path (extractTodos blame f),
          fileCache := alSet st.fileCache f.path
            { lastChecked := now, lastModified := f.mtime },
          processedFiles := strInsert st.processedFiles f.path },
       acc ++ extractTodos blame f) := by
  simp [processFileStep, h1, h2, bumpStatus, cacheHit_set_status, h3]

/-- The state component of a loop iteration ignores the accumulated
`newTodos`, and the accumulator only ever grows by appending. -/
theorem step_split (blame : String → Nat → Option String) (now : Nat)
    (st : TodoManager) (acc : List Todo) (f : WorkspaceFile) :
    processFileStep blame now (st, acc) f
      = ((processFileStep blame now (st, []) f).1,
         acc ++ (processFileStep blame now (st, []) f).2) := by
  by_cases h1 : f.path ∈ st.processedFiles
  · simp [step_processed blame now _ _ _ h1]
  · by_cases h2 : f.readable = true
    · by_cases h3 : cacheHit st f = true
      · simp [step_cacheSkip blame now _ _ _ h1 h2 h3]
      · have h3' : cacheHit st f = false := by
          cases h : cacheHit st f
          · rfl
          · exact absurd h h3
        simp [step_extract blame now _ _ _ h1 h2 h3']
    · have h2' : f.readable = false := by
        cases h : f.readable
        · rfl
        · exact absurd h h2
      simp [step_unreadable blame now _ _ _ h1 h2']

theorem foldl_step_split (blame : String → Nat → Option String) (now : Nat) :
    ∀ (fs : List WorkspaceFile) (st : TodoManager) (acc : List Todo),
    fs.foldl (processFileStep blame now) (st, acc)
      = ((fs.foldl (processFileStep blame now) (st, [])).1,
         acc ++ (fs.foldl (processFileStep blame now) (st, [])).2) := by
  intro fs
  induction fs with
  | nil => simp
  | cons f fs ih =>
    intro st acc
    simp only [List.foldl_cons]
    rw [step_split blame now st acc f,
        ih (processFileStep blame now (st, []) f).1
           (acc ++ (processFileStep blame now (st, []) f).2),
        ih (processFileStep blame now (st, []) f).1
           (processFileStep blame now (st, []) f).2]
    simp

/-! ## `processBatch` over fresh (unprocessed, uncached, readable) files -/

theorem processBatch_fresh (blame : String → Nat → Option String) (now : Nat) :
    ∀ (fs : List WorkspaceFile) (st : TodoManager),
    (∀ f ∈ fs, f.path ∉ st.processedFiles) →
    (∀ f ∈ fs, alGet st.fileCache f.path = none) →
    (∀ f ∈ fs, f.readable = true) →
    (fs.map (fun f => f.path)).Nodup →
    (processBatch blame now st fs).2
        = fs.flatMap (fun f => extractTodos blame f)
    ∧ (processBatch blame now st fs).1.todos
        = st.todos ++ fs.flatMap (fun f => extractTodos blame f)
    ∧ (processBatch blame now st fs).1.processedFiles
        = st.processedFiles ++ fs.map (fun f => f.path)
    ∧ (∀ p, p ∉ fs.map (fun f => f.path) →
        alGet (processBatch blame now st fs).1.fileCache p
          = alGet st.fileCache p)
    ∧ (processBatch blame now st fs).1.isProcessing = st.isProcessing := by
  intro fs
  induction fs with
  | nil =>
    intro st _ _ _ _
    simp [processBatch]
  | cons f fs ih =>
    intro st hproc hcache hread hnd
    have h1 : f.path ∉ st.processedFiles := hproc f (by simp)
    have h2 : alGet st.fileCache f.path = none := hcache f (by simp)
    have h3 : f.readable = true := hread f (by simp)
    have hch : cacheHit st f = false := by simp [cacheHit, h2]
    have hnd' := hnd
    rw [List.map_cons, List.nodup_cons] at hnd'
    obtain ⟨hfp, hndt⟩ := hnd'
    have hne : ∀ g ∈ fs, g.path ≠ f.path := by
      intro g hg hgf
      exact hfp (hgf ▸ List.mem_map_of_mem (fun x => x.path) hg)
    -- the state after processing the head file
    set S : TodoManager :=
      { fileCache := alSet st.fileCache f.path
          { lastChecked := now, lastModified := f.mtime },
        processedFiles := strInsert st.processedFiles f.path,
        todos := st.todos ++ extractTodos blame f,
        todosByFile :=
          if (extractTodos blame f).isEmpty then st.todosByFile
          else alSet st.todosByFile f.path (extractTodos blame f),
        isProcessing := st.isProcessing,
        status := (bumpStatus st f).status } with hS
    have hproc' : ∀ g ∈ fs, g.path ∉ S.processedFiles := by
      intro g hg
      rw [hS]
      simp only [strInsert_of_not_mem h1, bumpStatus]
      simp only [List.mem_append, List.mem_singleton]
      rintro (hmem | hmem)
      · exact hproc g (by simp [hg]) hmem
      · exact hne g hg hmem
    have hcache' : ∀ g ∈ fs, alGet S.fileCache g.path = none := by
      intro g hg
      rw [hS]
      simp only [bumpStatus]
      rw [alGet_alSet, if_neg (hne g hg)]
      exact hcache g (by simp [hg])
    have hread' : ∀ g ∈ fs, g.readable = true := fun g hg => hread g (by simp [hg])
    have key := ih S hproc' hcache' hread' hndt
    have hstep : processFileStep blame now (st, ([] : List Todo)) f
        = (S, extractTodos blame f) := by
      rw [step_extract blame now st [] f h1 h3 hch, hS]
      simp [bumpStatus]
    have hfold : processBatch blame now st (f :: fs)
        = ((processBatch blame now S fs).1,
           extractTodos blame f ++ (processBatch blame now S fs).2) := by
      simp only [processBatch, List.foldl_cons, hstep]
      exact foldl_step_split blame now fs S (extractTodos blame f)
    obtain ⟨k2, ktodos, kproc, kcache, kip⟩ := key
    refine ⟨?_, ?_, ?_, ?_, ?_⟩
    · rw [hfold]
      simp [k2]
    · rw [hfold]
      simp only [ktodos]
      simp [List.append_assoc]
    · rw [hfold]
      simp only [kproc]
      simp [strInsert_of_not_mem h1, List.append_assoc]
    · intro p hp
      have hpf : p ≠ f.path := by
        intro h
        exact hp (by simp [h])
      have hpfs : p ∉ fs.map (fun f => f.path) := by
        intro h
        exact hp (by simp [h])
      rw [hfold]
      simp only [kcache p hpfs]
      simp [alGet_alSet, hpf]
    · rw [hfold]
      simp only [kip]

/-! ## De-duplication is the identity on path-distinct enumerations -/

theorem dedupGo_of_nodup :
    ∀ (fuel : Nat) (l : List WorkspaceFile), l.length ≤ fuel →
    (l.map (fun f => f.path)).Nodup → dedupGo fuel l = l := by
  intro fuel
  induction fuel with
  | zero =>
    intro l hl _
    have : l = [] := List.eq_nil_of_length_eq_zero (Nat.le_zero.mp hl)
    subst this
    rfl
  | succ fuel ih =>
    intro l hl hnd
    cases l with
    | nil => rfl
    | cons f fs =>
      have hnd' := hnd
      rw [List.map_cons, List.nodup_cons] at hnd'
      obtain ⟨hfp, hndt⟩ := hnd'
      have hfilter : fs.filter (fun g => g.path ≠ f.path) = fs := by
        rw [List.filter_eq_self]
        intro g hg
        simp only [decide_eq_true_eq]
        intro hgf
        exact hfp (hgf ▸ List.mem_map_of_mem (fun x => x.path) hg)
      show f :: dedupGo fuel (fs.filter (fun g => g.path ≠ f.path)) = f :: fs
      rw [hfilter, ih fs (by simpa using Nat.le_of_succ_le_succ hl) hndt]

theorem dedupFiles_of_nodup (l : List WorkspaceFile)
    (h : (l.map (fun f => f.path)).Nodup) : dedupFiles l = l :=
  dedupGo_of_nodup l.length l le_rfl h

/-! ## The background continuation equals one long fold -/

theorem chunksGo_foldl_batches (blame : String → Nat → Option String)
    (now : Nat) :
    ∀ (fuel : Nat) (fs : List WorkspaceFile) (st : TodoManager),
    fs.length ≤ fuel →
    (chunksGo batchSize fuel fs).foldl
        (fun s b => (processBatch blame now s b).1) st
      = (fs.foldl (processFileStep blame now) (st, [])).1 := by
  intro fuel
  induction fuel with
  | zero =>
    intro fs st hl
    have : fs = [] := List.eq_nil_of_length_eq_zero (Nat.le_zero.mp hl)
    subst this
    simp [chunksGo]
  | succ fuel ih =>
    intro fs st hl
    cases fs with
    | nil => simp [chunksGo]
    | cons f fs' =>
      show ((f :: fs').take batchSize :: chunksGo batchSize fuel ((f :: fs').drop batchSize)).foldl
          (fun s b => (processBatch blame now s b).1) st = _
      rw [List.foldl_cons]
      rw [ih ((f :: fs').drop batchSize) _ (by
        have hl' : fs'.length + 1 ≤ fuel + 1 := by simpa using hl
        simp only [List.length_drop, List.length_cons, batchSize]
        omega)]
      conv_rhs => rw [← List.take_append_drop batchSize (f :: fs'), List.foldl_append]
      rw [foldl_step_split blame now ((f :: fs').drop batchSize)
            ((f :: fs').take batchSize |>.foldl (processFileStep blame now) (st, [])).1
            ((f :: fs').take batchSize |>.foldl (processFileStep blame now) (st, [])).2]
      rfl

/-- `processRemainingFiles` on fresh files: every annotation of every
pending file is appended to whatever `todos` the current state holds, the
status ends `complete`, and `isProcessing` ends false.  (There is no
staleness check of any kind: the state carries no generation counter.) -/
theorem processRemainingFiles_fresh (blame : String → Nat → Option String)
    (now : Nat) (st : TodoManager) (fs : List WorkspaceFile)
    (hproc : ∀ f ∈ fs, f.path ∉ st.processedFiles)
    (hcache : ∀ f ∈ fs, alGet st.fileCache f.path = none)
    (hread : ∀ f ∈ fs, f.readable = true)
    (hnd : (fs.map (fun f => f.path)).Nodup) :
    (processRemainingFiles blame now st fs).todos
        = st.todos ++ fs.flatMap (fun f => extractTodos blame f)
    ∧ (processRemainingFiles blame now st fs).status.state = ScanState.complete
    ∧ isStillProcessing (processRemainingFiles blame now st fs) = false := by
  obtain ⟨_, ktodos, _, _, _⟩ :=
    processBatch_fresh blame now fs st hproc hcache hread hnd
  have hfold : (chunks batchSize fs).foldl
      (fun s b => (processBatch blame now s b).1) st
      = (processBatch blame now st fs).1 := by
    unfold chunks
    rw [chunksGo_foldl_batches blame now fs.length fs st le_rfl]
    rfl
  unfold processRemainingFiles isStillProcessing
  rw [hfold]
  exact ⟨ktodos, rfl, rfl⟩

/-- C4 (amended): there is no generation token and no staleness check —
an in-flight background continuation from a superseded scan, run after a
new scan has reset the store, appends every annotation extracted from its
pending files into the *current* store instead of discarding them. -/
theorem C4_stale_continuation_appends (blame : String → Nat → Option String)
    (now : Nat) (st : TodoManager) (fs : List WorkspaceFile)
    (hproc : ∀ f ∈ fs, f.path ∉ st.processedFiles)
    (hcache : ∀ f ∈ fs, alGet st.fileCache f.path = none)
    (hread : ∀ f ∈ fs, f.readable = true)
    (hnd : (fs.map (fun f => f.path)).Nodup) :
    (processRemainingFiles blame now st fs).todos
      = st.todos ++ fs.flatMap (fun f => extractTodos blame f) :=
  (processRemainingFiles_fresh blame now st fs hproc hcache hread hnd).1

/-- Witness for the amended C4 at the concrete superseded-scan scenario:
the stale continuation pushes `leak.ts`'s annotation into the fresh store. -/
theorem C4_stale_continuation_witness :
    (processRemainingFiles blameNone 0 freshScanSt scan1.pending).todos
      = freshScanSt.todos
        ++ scan1.pending.flatMap (fun f => extractTodos blameNone f) :=
  C4_stale_continuation_appends blameNone 0 freshScanSt scan1.pending
    (by decide) (by decide) (by decide) (by decide)

/-- C5: confirmed.  In a batch-processing step on a not-yet-processed,
readable file, the file is skipped — nothing extracted, no state change
beyond the status bump and the processed-mark — **iff** a cache entry
exists whose stored fingerprint equals the file's current mtime
(`cacheHit`); and whenever the fingerprint check fails (entry absent or
mtime changed), the file is re-extracted and its annotations appended. -/
theorem C5_skip_iff_fingerprint_match (blame : String → Nat → Option String)
    (now : Nat) (st : TodoManager) (acc : List Todo) (f : WorkspaceFile)
    (h1 : f.path ∉ st.processedFiles) (h2 : f.readable = true) :
    (cacheHit st f = true ↔
      processFileStep blame now (st, acc) f
        = ({ bumpStatus st f with
             processedFiles := strInsert st.processedFiles f.path }, acc))
    ∧ (cacheHit st f = false →
        (processFileStep blame now (st, acc) f).1.todos
            = st.todos ++ extractTodos blame f
          ∧ (processFileStep blame now (st, acc) f).2
            = acc ++ extractTodos blame f) := by
  constructor
  · constructor
    · exact fun h3 => step_cacheSkip blame now st acc f h1 h2 h3
    · intro heq
      cases hcv : cacheHit st f with
      | true => rfl
      | false =>
        exfalso
        rw [step_extract blame now st acc f h1 h2 hcv] at heq
        have hcc : alGet (alSet st.fileCache f.path
              { lastChecked := now, lastModified := f.mtime }) f.path
            = alGet st.fileCache f.path :=
          congrArg (fun r : TodoManager × List Todo =>
            alGet r.1.fileCache f.path) heq
        rw [alGet_alSet, if_pos rfl] at hcc
        unfold cacheHit at hcv
        rw [← hcc] at hcv
        simp at hcv
  · intro h3
    rw [step_extract blame now st acc f h1 h2 h3]
    exact ⟨rfl, rfl⟩

def f5 : WorkspaceFile := ⟨"c.ts", 7, "// TODO: cached", true⟩

def st5 : TodoManager :=
  { newManager with fileCache := [("c.ts", { lastChecked := 0, lastModified := 7 })] }

/-- Witness for C5 at a state whose cache entry matches the file's mtime. -/
theorem C5_skip_witness :
    (cacheHit st5 f5 = true ↔
      processFileStep blameNone 3 (st5, []) f5
        = ({ bumpStatus st5 f5 with
             processedFiles := strInsert st5.processedFiles f5.path }, []))
    ∧ (cacheHit st5 f5 = false →
        (processFileStep blameNone 3 (st5, []) f5).1.todos
            = st5.todos ++ extractTodos blameNone f5
          ∧ (processFileStep blameNone 3 (st5, []) f5).2
            = [] ++ extractTodos blameNone f5) :=
  C5_skip_iff_fingerprint_match blameNone 3 st5 [] f5 (by decide) (by decide)

/-- C3: confirmed.  On a fresh manager (empty cache) and a duplicate-free,
readable enumeration: `initializeStream` returns exactly the annotations of
the first `min(batchSize, N)` files in enumeration order; when `N >
batchSize`, at the moment it returns `isStillProcessing` is true and the
remaining files are exactly the pending background work, and after the
background continuation (batches of the same `batchSize`) finishes, the
status state is `complete` and `getTotalCount` counts all `N` files'
annotations. -/
theorem C3_first_batch_and_background (blame : String → Nat → Option String)
    (now : Nat) (files : List WorkspaceFile) (st : TodoManager)
    (hnd : (files.map (fun f => f.path)).Nodup)
    (hrd : ∀ f ∈ files, f.readable = true)
    (hc : st.fileCache = []) :
    (initializeStream blame now files st).firstBatch
      = (files.take batchSize).flatMap (fun f => extractTodos blame f)
    ∧ (batchSize < files.length →
        isStillProcessing (initializeStream blame now files st).state = true
        ∧ (initializeStream blame now files st).pending = files.drop batchSize
        ∧ (processRemainingFiles blame now
             (initializeStream blame now files st).state
             (initializeStream blame now files st).pending).status.state
            = ScanState.complete
        ∧ getTotalCount (processRemainingFiles blame now
             (initializeStream blame now files st).state
             (initializeStream blame now files st).pending)
            = (files.flatMap (fun f => extractTodos blame f)).length) := by
  have hded : dedupFiles files = files := dedupFiles_of_nodup files hnd
  -- the reset state fed into the first batch
  set st2 : TodoManager :=
    { fileCache := st.fileCache, processedFiles := [], todos := [],
      todosByFile := st.todosByFile, isProcessing := true,
      status := { currentFile := st.status.currentFile, filesProcessed := 0,
                  totalFiles := files.length,
                  state := ScanState.searching } } with hst2
  have hinit : initializeStream blame now files st =
      if batchSize < files.length then
        ⟨(processBatch blame now st2 (files.take batchSize)).1,
         (processBatch blame now st2 (files.take batchSize)).2,
         files.drop batchSize⟩
      else
        ⟨{ (processBatch blame now st2 (files.take batchSize)).1 with
            status := { (processBatch blame now st2 (files.take batchSize)).1.status with
              state := ScanState.complete } },
         (processBatch blame now st2 (files.take batchSize)).2, []⟩ := by
    unfold initializeStream
    rw [hded, hst2]
  -- split the duplicate-freeness over the first batch and the rest
  have hsplit := hnd
  rw [← List.take_append_drop batchSize files, List.map_append] at hsplit
  obtain ⟨hndT, hndD, hdisj⟩ := List.nodup_append.mp hsplit
  -- preconditions of the first batch
  have hpT : ∀ f ∈ files.take batchSize, f.path ∉ st2.processedFiles := by
    intro f _
    rw [hst2]
    simp
  have hcT : ∀ f ∈ files.take batchSize, alGet st2.fileCache f.path = none := by
    intro f _
    rw [hst2]
    simp [hc, alGet]
  have hrT : ∀ f ∈ files.take batchSize, f.readable = true :=
    fun f hf => hrd f (List.take_subset _ _ hf)
  have key := processBatch_fresh blame now (files.take batchSize) st2 hpT hcT hrT hndT
  obtain ⟨k2, ktodos, kproc, kcache, kip⟩ := key
  constructor
  · rw [hinit]
    by_cases hN : batchSize < files.length
    · simp only [if_pos hN]
      exact k2
    · simp only [if_neg hN]
      exact k2
  · intro hN
    rw [hinit, if_pos hN]
    simp only
    -- facts about the state handed to the background phase
    have hmemD : ∀ g ∈ files.drop batchSize,
        g.path ∈ (files.drop batchSize).map (fun f => f.path) :=
      fun g hg => List.mem_map_of_mem (fun x => x.path) hg
    have hpD : ∀ g ∈ files.drop batchSize,
        g.path ∉ (processBatch blame now st2 (files.take batchSize)).1.processedFiles := by
      intro g hg
      rw [kproc, hst2]
      simp only [List.nil_append]
      intro hmem
      exact hdisj hmem (hmemD g hg)
    have hcD : ∀ g ∈ files.drop batchSize,
        alGet (processBatch blame now st2 (files.take batchSize)).1.fileCache g.path
          = none := by
      intro g hg
      rw [kcache g.path (fun hmem => hdisj hmem (hmemD g hg)), hst2]
      simp [hc, alGet]
    have hrD : ∀ g ∈ files.drop batchSize, g.readable = true :=
      fun g hg => hrd g (List.drop_subset _ _ hg)
    obtain ⟨btodos, bstate, _⟩ := processRemainingFiles_fresh blame now
      (processBatch blame now st2 (files.take batchSize)).1
      (files.drop batchSize) hpD hcD hrD hndD
    refine ⟨?_, ?_, bstate, ?_⟩
    · unfold isStillProcessing
      rw [kip, hst2]
    · trivial
    · unfold getTotalCount
      rw [btodos, ktodos, hst2]
      simp only [List.nil_append]
      congr 1
      conv_rhs => rw [← List.take_append_drop batchSize files]
      rw [List.flatMap_append]

/-- Witness for C3 at the concrete 21-file workspace `files1` (N = 21 >
batchSize = 20). -/
theorem C3_first_batch_witness :
    (initializeStream blameNone 0 files1 (initializeManager newManager)).firstBatch
      = (files1.take batchSize).flatMap (fun f => extractTodos blameNone f)
    ∧ (batchSize < files1.length →
        isStillProcessing
            (initializeStream blameNone 0 files1 (initializeManager newManager)).state
          = true
        ∧ (initializeStream blameNone 0 files1 (initializeManager newManager)).pending
            = files1.drop batchSize
        ∧ (processRemainingFiles blameNone 0
             (initializeStream blameNone 0 files1 (initializeManager newManager)).state
             (initializeStream blameNone 0 files1 (initializeManager newManager)).pending).status.state
            = ScanState.complete
        ∧ getTotalCount (processRemainingFiles blameNone 0
             (initializeStream blameNone 0 files1 (initializeManager newManager)).state
             (initializeStream blameNone 0 files1 (initializeManager newManager)).pending)
            = (files1.flatMap (fun f => extractTodos blameNone f)).length) :=
  C3_first_batch_and_background blameNone 0 files1 (initializeManager newManager)
    (by decide) (by decide) rfl

/-! ## Every match's raw captures are non-empty

The emission guard `if (match[1] && match[2])` tests the raw captures for
truthiness.  Both capture groups are `+`-quantified, so they always hold at
least one character: the guard never drops a match. -/

theorem eatCI_length :
    ∀ (p s cap r : List Char), eatCI p s = some (cap, r) →
    cap.length = p.length := by
  intro p
  induction p with
  | nil =>
    intro s cap r h
    simp only [eatCI, Option.some.injEq, Prod.mk.injEq] at h
    rw [← h.1]
  | cons a p ih =>
    intro s cap r h
    cases s with
    | nil => simp [eatCI] at h
    | cons c cs =>
      simp only [eatCI] at h
      by_cases hc : a.toUpper = c.toUpper
      · rw [if_pos hc] at h
        cases hm : eatCI p cs with
        | none => rw [hm] at h; simp at h
        | some pr =>
          obtain ⟨cap', r'⟩ := pr
          rw [hm] at h
          simp only [Option.some.injEq, Prod.mk.injEq] at h
          rw [← h.1]
          simp [ih cs cap' r' hm]
      · rw [if_neg hc] at h
        simp at h

theorem msgSearchAux_lb :
    ∀ (rem mlen : Nat) (s : List Char) (m c : Nat),
    msgSearchAux s mlen rem = some (m, c) → mlen ≤ m := by
  intro rem
  induction rem with
  | zero => intro mlen s m c h; simp [msgSearchAux] at h
  | succ rem ih =>
    intro mlen s m c h
    simp only [msgSearchAux] at h
    cases hcm : closeMatch (s.drop mlen) with
    | some n =>
      rw [hcm] at h
      simp only [Option.some.injEq, Prod.mk.injEq] at h
      omega
    | none =>
      rw [hcm] at h
      exact Nat.le_of_succ_le (ih (mlen + 1) s m c h)

theorem msgSearch_take_ne (s : List Char) (m c : Nat)
    (h : msgSearch s = some (m, c)) : s.take m ≠ [] := by
  have h1 : 1 ≤ m := msgSearchAux_lb _ 1 s m c h
  have h2 : s ≠ [] := by
    intro hs
    subst hs
    simp [msgSearch, msgSearchAux] at h
  intro hnil
  rcases List.take_eq_nil_iff.mp hnil with h0 | h0
  · omega
  · exact h2 h0

theorem tailFrom_msg_ne :
    ∀ (j : Nat) (s : List Char) (n : Nat) (msg : List Char),
    tailFrom s j = some (n, msg) → msg ≠ [] := by
  intro j
  induction j with
  | zero =>
    intro s n msg h
    simp only [tailFrom] at h
    cases hm : msgSearch s with
    | none => rw [hm] at h; simp at h
    | some pr =>
      obtain ⟨m, c⟩ := pr
      rw [hm] at h
      simp only [Option.some.injEq, Prod.mk.injEq] at h
      rw [← h.2]
      exact msgSearch_take_ne s m c hm
  | succ j ih =>
    intro s n msg h
    simp only [tailFrom] at h
    cases hm : msgSearch (s.drop (j + 1)) with
    | none => rw [hm] at h; exact ih s n msg h
    | some pr =>
      obtain ⟨m, c⟩ := pr
      rw [hm] at h
      simp only [Option.some.injEq, Prod.mk.injEq] at h
      rw [← h.2]
      exact msgSearch_take_ne _ m c hm

theorem tailMatch_msg_ne (s : List Char) (n : Nat) (msg : List Char)
    (h : tailMatch s = some (n, msg)) : msg ≠ [] :=
  tailFrom_msg_ne (wsRun s) s n msg h

theorem afterMarker_msg_ne (s : List Char) (n : Nat) (msg : List Char)
    (h : afterMarker s = some (n, msg)) : msg ≠ [] := by
  cases s with
  | nil =>
    simp only [afterMarker] at h
    exact tailMatch_msg_ne _ _ _ h
  | cons c rest =>
    simp only [afterMarker] at h
    by_cases hc : (c = ':' || c = '_' || c = '-') = true
    · rw [if_pos hc] at h
      cases hm : tailMatch rest with
      | none =>
        simp only [hm] at h
        exact tailMatch_msg_ne _ _ _ h
      | some pr =>
        obtain ⟨n', msg'⟩ := pr
        simp only [hm, Option.some.injEq, Prod.mk.injEq] at h
        rw [← h.2]
        exact tailMatch_msg_ne _ _ _ hm
    · rw [if_neg hc] at h
      exact tailMatch_msg_ne _ _ _ h

theorem tryMarkers_caps_ne :
    ∀ (ms : List String) (s : List Char) (n : Nat) (cap msg : List Char),
    (∀ m ∈ ms, m.data ≠ []) → tryMarkers ms s = some (n, cap, msg) →
    cap ≠ [] ∧ msg ≠ [] := by
  intro ms
  induction ms with
  | nil => intro s n cap msg _ h; simp [tryMarkers] at h
  | cons m ms ih =>
    intro s n cap msg hne h
    cases he : eatCI m.data s with
    | none =>
      simp only [tryMarkers, he] at h
      exact ih s n cap msg (fun x hx => hne x (by simp [hx])) h
    | some pr =>
      obtain ⟨cap', s3⟩ := pr
      cases ha : afterMarker s3 with
      | none =>
        simp only [tryMarkers, he, ha] at h
        exact ih s n cap msg (fun x hx => hne x (by simp [hx])) h
      | some pr2 =>
        obtain ⟨n', msg'⟩ := pr2
        simp only [tryMarkers, he, ha, Option.some.injEq, Prod.mk.injEq] at h
        obtain ⟨h1, h2, h3⟩ := h
        constructor
        · rw [← h2]
          intro hcap
          have hlen := eatCI_length m.data s cap' s3 he
          rw [hcap] at hlen
          exact hne m (by simp) (List.eq_nil_of_length_eq_zero hlen.symm)
        · rw [← h3]
          exact afterMarker_msg_ne s3 n' msg' ha

theorem tryOpeners_caps_ne :
    ∀ (os : List (List Char)) (s : List Char) (n : Nat) (cap msg : List Char),
    tryOpeners os s = some (n, cap, msg) → cap ≠ [] ∧ msg ≠ [] := by
  intro os
  induction os with
  | nil => intro s n cap msg h; simp [tryOpeners] at h
  | cons o os ih =>
    intro s n cap msg h
    cases he : eatExact o s with
    | none =>
      simp only [tryOpeners, he] at h
      exact ih s n cap msg h
    | some s1 =>
      cases hm : tryMarkers markerWords (s1.drop (wsRun s1)) with
      | none =>
        simp only [tryOpeners, he, hm] at h
        exact ih s n cap msg h
      | some pr =>
        obtain ⟨n', cap', msg'⟩ := pr
        simp only [tryOpeners, he, hm, Option.some.injEq, Prod.mk.injEq] at h
        obtain ⟨h1, h2, h3⟩ := h
        have hk := tryMarkers_caps_ne markerWords (s1.drop (wsRun s1)) n' cap' msg'
          (by decide) hm
        exact ⟨h2 ▸ hk.1, h3 ▸ hk.2⟩

theorem findMatchesAux_caps_ne :
    ∀ (fuel : Nat) (s : List Char) (i : Nat) (tm : TodoMatch),
    tm ∈ findMatchesAux fuel s i → tm.marker ≠ "" ∧ tm.message ≠ "" := by
  intro fuel
  induction fuel with
  | zero => intro s i tm h; simp [findMatchesAux] at h
  | succ fuel ih =>
    intro s i tm h
    cases s with
    | nil => simp [findMatchesAux] at h
    | cons c rest =>
      simp only [findMatchesAux] at h
      cases hm : matchAt (c :: rest) with
      | none => rw [hm] at h; exact ih rest (i + 1) tm h
      | some pr =>
        obtain ⟨n, cap, msg⟩ := pr
        rw [hm] at h
        simp only [List.mem_cons] at h
        rcases h with h | h
        · subst h
          have hk := tryOpeners_caps_ne openerLits (c :: rest) n cap msg hm
          constructor
          · intro hS
            exact hk.1 (congrArg String.data hS)
          · intro hS
            exact hk.2 (congrArg String.data hS)
        · exact ih _ _ tm h

theorem findTodoMatches_caps_ne (text : String) (tm : TodoMatch)
    (h : tm ∈ findTodoMatches text) : tm.marker ≠ "" ∧ tm.message ≠ "" :=
  findMatchesAux_caps_ne _ _ _ tm h

theorem filterMap_if_all {α β : Type} (p : α → Prop) [DecidablePred p]
    (g : α → β) :
    ∀ (l : List α), (∀ x ∈ l, p x) →
    l.filterMap (fun x => if p x then some (g x) else none) = l.map g := by
  intro l
  induction l with
  | nil => intro _; rfl
  | cons x l ih =>
    intro hall
    have hx : p x := hall x (by simp)
    simp only [List.filterMap_cons, if_pos hx, List.map_cons]
    rw [ih (fun y hy => hall y (by simp [hy]))]

/-- C7 (amended): the guard at `todo-manager.ts:257` tests the **raw**
captures (`match[1] && match[2]`), not the trimmed ones; both groups are
`+`-quantified so the guard is vacuous — an annotation is stored for every
regex match, including matches whose message capture is whitespace-only
(which end up with an empty message after trimming instead of being
dropped). -/
theorem C7_guard_never_drops (blame : String → Nat → Option String)
    (f : WorkspaceFile) :
    extractTodos blame f
        = (findTodoMatches f.text).map (mkTodoFromMatch blame f)
    ∧ (extractTodos blame f).length = (findTodoMatches f.text).length := by
  have h1 : extractTodos blame f
      = (findTodoMatches f.text).map (mkTodoFromMatch blame f) := by
    unfold extractTodos
    exact filterMap_if_all (fun m => m.marker ≠ "" ∧ m.message ≠ "")
      (mkTodoFromMatch blame f) (findTodoMatches f.text)
      (fun tm hm => findTodoMatches_caps_ne f.text tm hm)
  exact ⟨h1, by rw [h1, List.length_map]⟩
